import Mathlib

/-!
# Verification of the star-notary blockchain (`src/blockchain.js`)

Shallow embedding of the `Blockchain` class from `src/blockchain.js`.
The chain is a list of blocks plus a cached `height`; every method of the
class becomes a pure Lean function over that state.  The external
collaborators (the SHA-256 digest, the bitcoinjs-message signature
verifier, the clock, and the star-payload decoder) are passed in as
explicit function/value parameters, so theorems quantify over them.

The `Block` entity lives in `block.js`, which is not part of the sources
here; its constructor, field layout, serialization and `validate()`
routine are modelled from the specification, and each such definition is
marked `Modelled from the spec:` in its doc comment.
-/

namespace StarChain

/-- The body payload of a block.  Modelled from the spec: the body is a
tagged variant — either the fixed genesis marker record
(`data: "Genesis Block"` in `blockchain.js`) or a star-claim record
`(address, message, star)` where `star` is the client-supplied encoded
payload (`submitStar` in `blockchain.js`, lines 164-169). -/
inductive Body where
  | genesis (data : String)
  | star (address : String) (message : String) (star : String)
deriving DecidableEq, Repr

/-- A block.  Field set taken from what `blockchain.js` reads and writes
on a block (`hash`, `height`, `body`, `time`, `previousBlockHash`);
`hash` and `previousBlockHash` are `Option String` because JavaScript
uses `null` before assignment and for the genesis link.  The `time`
field is the epoch-seconds value `new Date().getTime().toString().slice(0,-3)`
(line 77), modelled as the seconds number itself. -/
structure Block where
  hash : Option String
  height : Int
  body : Body
  time : Nat
  previousBlockHash : Option String
deriving DecidableEq, Repr

/-- Modelled from the spec: the `Block` constructor (in the absent
`block.js`) stores the given body and leaves the other fields unset —
in particular the `hash` field is the null value until the append
operation computes it. -/
def mkBlock (body : Body) : Block :=
  { hash := none, height := 0, body := body, time := 0, previousBlockHash := none }

/-- Serialization of an optional string field: `null` or the string. -/
def optField : Option String → String
  | none => "null"
  | some s => s

/-- Modelled from the spec: canonical serialization of the body variant. -/
def Body.serialize : Body → String
  | .genesis d => "data=" ++ d
  | .star a m s => "address=" ++ a ++ ",message=" ++ m ++ ",star=" ++ s

/-- Modelled from the spec: the canonical serialization used as digest
input — `JSON.stringify(block)` in `_addBlock` (line 81) with the block's
fields in a fixed, reproducible order.  Every field appears, including
the `hash` field with its current (pre-assignment, null) value. -/
def Block.serialize (b : Block) : String :=
  "hash=" ++ optField b.hash ++
  ";height=" ++ toString b.height ++
  ";body=" ++ b.body.serialize ++
  ";time=" ++ toString b.time ++
  ";previousBlockHash=" ++ optField b.previousBlockHash

/-- Modelled from the spec: `Block.validate()` (in the absent `block.js`)
recomputes the digest over the block's fields excluding the stored hash
(the hash slot holding the null value, exactly as at computation time in
`_addBlock`) and compares it with the stored hash. -/
def Block.validate (digest : String → String) (b : Block) : Bool :=
  b.hash = some (digest (Block.serialize { b with hash := none }))

/-- The chain-manager state: the `chain` array and the cached `height`,
initialized in the constructor to `[]` and `-1` (lines 26-27). -/
structure Blockchain where
  chain : List Block
  height : Int
deriving Repr

/-- The constructor's initial state, before genesis creation. -/
def Blockchain.new : Blockchain := { chain := [], height := -1 }

/-- Source `_addBlock(block)` (lines 64-96): pick `previousBlockHash` from
`chain[height]` (or `null` when `height === -1`), assign `time` and
`height = this.height + 1`, compute the hash over the serialized block
(whose `hash` field still holds its pre-assignment value), push, and
update the cached height.  Returns the new state and the resolved block. -/
def Blockchain._addBlock (digest : String → String) (now : Nat)
    (self : Blockchain) (block : Block) : Blockchain × Block :=
  let b1 :=
    if self.height = -1 then
      { block with previousBlockHash := none }
    else
      -- JS: `self.chain[self.height].hash`
      { block with previousBlockHash :=
          (self.chain.get? self.height.toNat).bind Block.hash }
  let b2 := { b1 with time := now, height := self.height + 1 }
  let b3 := { b2 with hash := some (digest b2.serialize) }
  ({ chain := self.chain ++ [b3], height := b3.height }, b3)

/-- Source `initializeChain()` (lines 36-41): if `height === -1`, create the
genesis block with body `data: "Genesis Block"` via `_addBlock`. -/
def Blockchain.initChain (digest : String → String) (now : Nat)
    (self : Blockchain) : Blockchain :=
  if self.height = -1 then
    (self._addBlock digest now (mkBlock (Body.genesis "Genesis Block"))).1
  else self

/-- Source `getChainHeight()` (lines 46-50): resolves with the cached height. -/
def Blockchain.getChainHeight (self : Blockchain) : Int := self.height

/-- Source `requestMessageOwnershipVerification(address)` (lines 107-118):
the challenge message `address:currentTime:starRegistry`. -/
def requestMessageOwnershipVerification (now : Nat) (address : String) : String :=
  address ++ ":" ++ toString now ++ ":starRegistry"

/-- JavaScript `parseInt` on a string: skip leading spaces, optional
sign, then a leading run of digits; `none` models `NaN` (no digits). -/
def parseIntJS (s : String) : Option Int :=
  let cs := s.toList.dropWhile (fun c => c = ' ')
  let signAndRest : Bool × List Char :=
    match cs with
    | '-' :: rest => (true, rest)
    | '+' :: rest => (false, rest)
    | rest => (false, rest)
  let ds := signAndRest.2.takeWhile Char.isDigit
  if ds.isEmpty then none
  else
    let v : Nat := ds.foldl (fun acc c => acc * 10 + (c.toNat - 48)) 0
    some (if signAndRest.1 then -(v : Int) else (v : Int))

/-- Splitting a character list on a separator, JavaScript
`String.prototype.split` style: the list of fields between separator
occurrences, empty fields included. -/
def splitChars (sep : Char) : List Char → List (List Char)
  | [] => [[]]
  | c :: rest =>
    if c = sep then [] :: splitChars sep rest
    else
      match splitChars sep rest with
      | [] => [[c]]
      | h :: t => (c :: h) :: t

/-- JavaScript `message.split(":")`: the colon-separated fields of the
string, in order. -/
def jsSplit (sep : Char) (s : String) : List String :=
  (splitChars sep s.toList).map String.mk

/-- Source `parseInt(message.split(":")[1])` (line 141): the second
colon-delimited field parsed as an integer; `none` models `NaN`
(missing field, or a field with no leading digits). -/
def messageTimeOf (message : String) : Option Int :=
  ((jsSplit ':' message).get? 1).bind parseIntJS

/-- A JavaScript `>` comparison whose left side may be `NaN` (`none`):
any comparison against `NaN` is `false`. -/
def jsGtNaN : Option Int → Int → Bool
  | none, _ => false
  | some a, b => a > b

/-- The two rejection reasons of `submitStar` (lines 153 and 160). -/
inductive SubmitError where
  | timeElapsed   -- "Time elapsed is greater than 5 minutes."
  | verifyFailed  -- "Message verification failed."
deriving DecidableEq, Repr

/-- Source `submitStar(address, message, signature, star)` (lines 137-177):
parse the embedded time, compare the elapsed time against 5 minutes
(`timeElapsed > fiveMinutesInSeconds` rejects), verify the signature
(`bitcoinMessage.verify`, passed in as `verify`), then build the body
`(address, message, star)` and append it via `_addBlock`.  Returns the
(possibly updated) state and the resolved block or rejection. -/
def Blockchain.submitStar (digest : String → String)
    (verify : String → String → String → Bool) (now : Nat)
    (self : Blockchain) (address message signature star : String) :
    Blockchain × Except SubmitError Block :=
  let messageTime := messageTimeOf message
  let currentTime : Int := now
  let timeElapsed : Option Int := messageTime.map (fun t => currentTime - t)
  let fiveMinutesInSeconds : Int := 5 * 60
  if jsGtNaN timeElapsed fiveMinutesInSeconds then
    (self, .error .timeElapsed)
  else if !(verify message address signature) then
    (self, .error .verifyFailed)
  else
    let data := Body.star address message star
    let res := self._addBlock digest now (mkBlock data)
    (res.1, .ok res.2)

/-- The `NotFound` rejection of `getBlockByHash` (line 196). -/
inductive LookupError where
  | notFound
deriving DecidableEq, Repr

/-- Source `getBlockByHash(hash)` (lines 185-199): `chain.find` for the first
block whose `hash` equals the argument; rejects with `NotFound` when
absent. -/
def Blockchain.getBlockByHash (self : Blockchain) (hash : String) :
    Except LookupError Block :=
  match self.chain.find? (fun b => b.hash = some hash) with
  | some b => .ok b
  | none => .error .notFound

/-- Source `getBlockByHeight(height)` (lines 207-217): `chain.filter` on the
`height` field, take the first match; resolves with `null` (here `none`)
when there is none — never a rejection. -/
def Blockchain.getBlockByHeight (self : Blockchain) (height : Int) :
    Option Block :=
  (self.chain.filter (fun p => p.height = height)).head?

/-- The `for (let block of self.chain)` loop of `getStarsByWalletAddress`
with its accumulator array `stars` (lines 227-235): a block contributes
`decode` of its star payload exactly when its body carries an `address`
field equal to the argument (the genesis body has no `address` field,
so `block.body.address === address` is false for it). -/
def getStarsLoop (decode : String → String) (address : String) :
    List Block → List String → List String
  | [], stars => stars
  | b :: rest, stars =>
    match b.body with
    | .star a _ s =>
      if a = address then getStarsLoop decode address rest (stars ++ [decode s])
      else getStarsLoop decode address rest stars
    | .genesis _ => getStarsLoop decode address rest stars

/-- Source `getStarsByWalletAddress(address)` (lines 225-242): scan the
chain in order; for each block whose body has an `address` field equal
to the argument, push the decoded star payload.  `decode` is the
star-payload decoder (`JSON.parse` over the encoding that `block.js`
applies — modelled from the spec, which treats the body's exact field
encoding as an external black box whose decoding returns the client's
payload). -/
def Blockchain.getStarsByWalletAddress (decode : String → String)
    (self : Blockchain) (address : String) : List String :=
  getStarsLoop decode address self.chain []

/-- The error-log entry pushed at line 261. -/
def invalidBlockMsg (i : Nat) : String :=
  "Block at height " ++ toString i ++ " is invalid."

/-- The error-log entry pushed at line 266. -/
def invalidLinkMsg (i : Nat) : String :=
  "Block at height " ++ toString i ++ " has an invalid previousBlockHash."

/-- Source `validateChain()` (lines 250-277): for every index `i` in order,
push "invalid" when `block.validate()` is false, and — independently —
push "invalid previousBlockHash" when `i > 0` and
`block.previousBlockHash !== chain[i-1].hash`.  Resolves with the full
error log; it never mutates the chain and never stops early. -/
def Blockchain.validateChain (digest : String → String)
    (self : Blockchain) : List String :=
  (List.range self.chain.length).flatMap (fun i =>
    match self.chain.get? i with
    | none => []
    | some block =>
      (if !(block.validate digest) then [invalidBlockMsg i] else []) ++
      (if i > 0 then
        match self.chain.get? (i - 1) with
        | some prevB =>
          if block.previousBlockHash ≠ prevB.hash then [invalidLinkMsg i] else []
        | none => []
      else []))

/-- The digest input of `_addBlock` as a function of the block's fields
other than the hash: the canonical serialization with the hash slot at
its pre-assignment null value. -/
def hashBase (body : Body) (height : Int) (time : Nat) (prev : Option String) : String :=
  Block.serialize
    { hash := none, height := height, body := body, time := time,
      previousBlockHash := prev }

/-- The previous-hash value `_addBlock` links a new block to: null on an
empty chain (`height === -1`), else `chain[height].hash`. -/
def Blockchain.lastHash (self : Blockchain) : Option String :=
  if self.height = -1 then none
  else (self.chain.get? self.height.toNat).bind Block.hash

/-- A sequence of successful appends: fold `_addBlock` over a list of
(timestamp, body) pairs. -/
def appendMany (digest : String → String) (steps : List (Nat × Body))
    (st : Blockchain) : Blockchain :=
  steps.foldl (fun s p => (s._addBlock digest p.1 (mkBlock p.2)).1) st

/-- The linkage invariant (spec §3, invariants 1-2): the first block has
a null previous-hash and height 0, and every later block links to its
predecessor's hash and carries its index as its height. -/
def chainLinked (chain : List Block) : Prop :=
  (∀ b, chain.get? 0 = some b → b.previousBlockHash = none ∧ b.height = 0) ∧
  (∀ i b p, 0 < i → chain.get? i = some b → chain.get? (i - 1) = some p →
    b.previousBlockHash = p.hash ∧ b.height = (i : Int))

/-- Well-formedness of a chain-manager state: the cached height equals
the chain length minus one, and the chain is linked. -/
def WF (st : Blockchain) : Prop :=
  st.height = (st.chain.length : Int) - 1 ∧ chainLinked st.chain

/-- The states reachable through the public interface: genesis
initialization followed by any sequence of `submitStar` calls (each with
its own clock reading and arguments). -/
inductive Reachable (digest : String → String)
    (verify : String → String → String → Bool) : Blockchain → Prop
  | genesis (now : Nat) :
      Reachable digest verify (Blockchain.new.initChain digest now)
  | submit (st : Blockchain) (now : Nat) (a m s star : String) :
      Reachable digest verify st →
      Reachable digest verify (st.submitStar digest verify now a m s star).1

/-- Whether a body carries an `address` field equal to the argument —
the test `block.body && block.body.address === address` of line 231. -/
def bodyMatches (address : String) : Body → Bool
  | .star a _ _ => a = address
  | .genesis _ => false

/-- The spec's description of `starsByAddress` (§4.4): the decoded star
payloads of exactly the blocks whose body's address field equals the
argument, in chain order. -/
def starsSpec (decode : String → String) (address : String)
    (chain : List Block) : List String :=
  chain.filterMap (fun b =>
    match b.body with
    | .star a _ s => if a = address then some (decode s) else none
    | .genesis _ => none)

/-- A concrete digest stand-in used by closed witness statements. -/
def digestD : String → String := fun _ => "D"

/-- A concrete block that passes `validate` under `digestD` (its stored
hash is the constant digest value) with height 0 and a null link. -/
def wb0 : Block :=
  { hash := some "D", height := 0, body := .genesis "G", time := 0,
    previousBlockHash := none }

/-- A concrete block at height 1 that fails `validate` under `digestD`
(stored hash differs from the constant digest value) and whose link also
disagrees with `wb0`'s hash. -/
def wb1 : Block :=
  { hash := some "X", height := 1, body := .genesis "G", time := 0,
    previousBlockHash := some "Z" }

/-! ## Theorems -/

/-- C2: every block stored by the append operation carries as its hash
the digest of the canonical serialization of its other fields (body,
height, timestamp, previousHash) with the hash slot held at its null
pre-assignment value — the stored hash is a function of the other
fields only, never of itself; and the block pushed onto the chain is
exactly the resolved block. -/
theorem addBlock_hash_over_other_fields
    (digest : String → String) (now : Nat) (st : Blockchain) (body : Body) :
    ((st._addBlock digest now (mkBlock body)).2).hash
      = some (digest (hashBase body (st.height + 1) now st.lastHash)) ∧
    (st._addBlock digest now (mkBlock body)).1.chain
      = st.chain ++ [(st._addBlock digest now (mkBlock body)).2] := by
  by_cases h : st.height = -1 <;>
    simp [Blockchain._addBlock, hashBase, Blockchain.lastHash, mkBlock, h]

/-- Case analysis of `submitStar`: it either rejects (expired or
unverified) leaving the state untouched, or appends exactly one block
via `_addBlock` and resolves with it. -/
theorem submitStar_shape (digest : String → String)
    (verify : String → String → String → Bool) (now : Nat)
    (st : Blockchain) (a m s star : String) :
    st.submitStar digest verify now a m s star = (st, .error .timeElapsed) ∨
    st.submitStar digest verify now a m s star = (st, .error .verifyFailed) ∨
    st.submitStar digest verify now a m s star
      = ((st._addBlock digest now (mkBlock (Body.star a m star))).1,
         .ok (st._addBlock digest now (mkBlock (Body.star a m star))).2) := by
  by_cases h1 : jsGtNaN ((messageTimeOf m).map (fun t => (now : Int) - t)) 300
  · left; simp [Blockchain.submitStar, h1]
  · by_cases h2 : verify m a s
    · right; right; simp [Blockchain.submitStar, h1, h2]
    · right; left; simp [Blockchain.submitStar, h1, h2]

/-- C3: the freshness check of `submitStar` is a strict 300-second
window on `elapsed = currentTime - embeddedTime`: when elapsed exceeds
300 the call rejects as expired with the state unchanged (no block is
created), and when elapsed equals exactly 300 the check passes. -/
theorem submitStar_freshness_window
    (digest : String → String) (verify : String → String → String → Bool)
    (now : Nat) (st : Blockchain) (a m s star : String) (t : Int)
    (hp : messageTimeOf m = some t) :
    ((now : Int) - t > 300 →
      st.submitStar digest verify now a m s star = (st, .error .timeElapsed)) ∧
    ((now : Int) - t = 300 →
      (st.submitStar digest verify now a m s star).2 ≠ .error .timeElapsed) := by
  constructor
  · intro hgt
    have hc : jsGtNaN ((messageTimeOf m).map (fun u => (now : Int) - u)) 300
        = true := by
      rw [hp]
      show jsGtNaN (some ((now : Int) - t)) 300 = true
      simp only [jsGtNaN, decide_eq_true_eq]; omega
    simp [Blockchain.submitStar, hc]
  · intro heq
    have hc : jsGtNaN ((messageTimeOf m).map (fun u => (now : Int) - u)) 300
        = false := by
      rw [hp]
      show jsGtNaN (some ((now : Int) - t)) 300 = false
      simp only [jsGtNaN, decide_eq_false_iff_not]; omega
    by_cases hv : verify m a s <;> simp [Blockchain.submitStar, hc, hv]

/-- Witness for C3 at concrete inputs: with embedded timestamp 100, a
current time of 401 (elapsed 301) rejects as expired, and a current
time of 400 (elapsed exactly 300) does not reject as expired. -/
theorem submitStar_freshness_window_witness :
    Blockchain.new.submitStar digestD (fun _ _ _ => false) 401
      "a" "a:100:starRegistry" "s" "p" = (Blockchain.new, .error .timeElapsed) ∧
    (Blockchain.new.submitStar digestD (fun _ _ _ => false) 400
      "a" "a:100:starRegistry" "s" "p").2 ≠ .error .timeElapsed := by
  constructor
  · exact (submitStar_freshness_window digestD (fun _ _ _ => false) 401 Blockchain.new
      "a" "a:100:starRegistry" "s" "p" 100 (by decide)).1 (by decide)
  · exact (submitStar_freshness_window digestD (fun _ _ _ => false) 400 Blockchain.new
      "a" "a:100:starRegistry" "s" "p" 100 (by decide)).2 (by decide)

/-- C4 counterexample: the message "hello" has no second colon-delimited
field (its embedded timestamp is NaN), yet `submitStar` raises no
parsing error — the NaN comparison makes the freshness check pass, the
call proceeds, and with an accepting verifier it appends a block and
resolves with it instead of failing. -/
theorem submitStar_malformed_counterexample :
    messageTimeOf "hello" = none ∧
    (Blockchain.new.submitStar digestD (fun _ _ _ => true) 1000
      "addr" "hello" "sig" "p").2
      = .ok (Blockchain.new._addBlock digestD 1000
          (mkBlock (Body.star "addr" "hello" "p"))).2 :=
  ⟨rfl, rfl⟩

/-- C4 amended: a `submitStar` call whose message does not parse into
the expected colon-delimited structure does not fail with a parsing
error; `parseInt` yields NaN, the freshness comparison on NaN is false
so the check passes, and the call proceeds to signature verification —
rejecting with the signature error or appending a block according to
the verifier's verdict. -/
theorem submitStar_malformed_proceeds
    (digest : String → String) (verify : String → String → String → Bool)
    (now : Nat) (st : Blockchain) (a m s star : String)
    (hp : messageTimeOf m = none) :
    (verify m a s = false →
      st.submitStar digest verify now a m s star = (st, .error .verifyFailed)) ∧
    (verify m a s = true →
      st.submitStar digest verify now a m s star
        = ((st._addBlock digest now (mkBlock (Body.star a m star))).1,
           .ok (st._addBlock digest now (mkBlock (Body.star a m star))).2)) := by
  have hc : jsGtNaN ((messageTimeOf m).map (fun u => (now : Int) - u)) 300
      = false := by rw [hp]; rfl
  constructor <;> intro hv <;> simp [Blockchain.submitStar, hc, hv]

/-- Witness for the amended C4: the malformed message "hello" with a
rejecting verifier fails with the signature error — not a parsing
error — and the state is unchanged. -/
theorem submitStar_malformed_proceeds_witness :
    Blockchain.new.submitStar digestD (fun _ _ _ => false) 1000
      "addr" "hello" "sig" "p" = (Blockchain.new, .error .verifyFailed) :=
  (submitStar_malformed_proceeds digestD (fun _ _ _ => false) 1000 Blockchain.new
    "addr" "hello" "sig" "p" (by decide)).1 rfl

/-- C5: every failing `submitStar` call — expired challenge or rejected
signature — leaves the chain-manager state (chain array and cached
height) exactly as it was: no block is created and the chain length is
unchanged. -/
theorem submitStar_error_state_unchanged
    (digest : String → String) (verify : String → String → String → Bool)
    (now : Nat) (st : Blockchain) (a m s star : String) (e : SubmitError)
    (h : (st.submitStar digest verify now a m s star).2 = .error e) :
    (st.submitStar digest verify now a m s star).1 = st := by
  rcases submitStar_shape digest verify now st a m s star with hs | hs | hs <;>
    rw [hs] at h ⊢
  simp at h

/-- Witness for C5: a concrete expired submission leaves the genesis
state untouched. -/
theorem submitStar_error_state_unchanged_witness :
    (Blockchain.new.submitStar digestD (fun _ _ _ => false) 401
      "a" "a:100:starRegistry" "s" "p").1 = Blockchain.new :=
  submitStar_error_state_unchanged digestD (fun _ _ _ => false) 401 Blockchain.new
    "a" "a:100:starRegistry" "s" "p" .timeElapsed rfl

/-- C10: a future-dated challenge (embedded timestamp strictly greater
than the current time) yields a negative elapsed time, the freshness
check passes, and the call proceeds to signature verification — it is
never rejected as expired. -/
theorem submitStar_future_timestamp
    (digest : String → String) (verify : String → String → String → Bool)
    (now : Nat) (st : Blockchain) (a m s star : String) (t : Int)
    (hp : messageTimeOf m = some t) (hfut : (now : Int) < t) :
    (now : Int) - t < 0 ∧
    (verify m a s = false →
      st.submitStar digest verify now a m s star = (st, .error .verifyFailed)) ∧
    (verify m a s = true →
      st.submitStar digest verify now a m s star
        = ((st._addBlock digest now (mkBlock (Body.star a m star))).1,
           .ok (st._addBlock digest now (mkBlock (Body.star a m star))).2)) := by
  have hc : jsGtNaN ((messageTimeOf m).map (fun u => (now : Int) - u)) 300
      = false := by
    rw [hp]
    show jsGtNaN (some ((now : Int) - t)) 300 = false
    simp only [jsGtNaN, decide_eq_false_iff_not]; omega
  refine ⟨by omega, ?_, ?_⟩ <;> intro hv <;> simp [Blockchain.submitStar, hc, hv]

/-- Witness for C10: a challenge dated 9999 submitted at time 10 is not
rejected as expired; with an accepting verifier the block is appended. -/
theorem submitStar_future_timestamp_witness :
    Blockchain.new.submitStar digestD (fun _ _ _ => true) 10
      "a" "a:9999:starRegistry" "s" "p"
      = ((Blockchain.new._addBlock digestD 10
            (mkBlock (Body.star "a" "a:9999:starRegistry" "p"))).1,
         .ok (Blockchain.new._addBlock digestD 10
            (mkBlock (Body.star "a" "a:9999:starRegistry" "p"))).2) :=
  (submitStar_future_timestamp digestD (fun _ _ _ => true) 10 Blockchain.new
    "a" "a:9999:starRegistry" "s" "p" 9999 (by decide) (by decide)).2.2 rfl

/-- Structure of `_addBlock`'s result: the new chain is the old chain
with the resolved block appended, the cached height and the block's
height increment the old height, and the block links to `chain[height]`
(null on an empty chain). -/
theorem addBlock_grows (digest : String → String) (now : Nat)
    (st : Blockchain) (blk : Block) :
    ((st._addBlock digest now blk).1).chain
        = st.chain ++ [(st._addBlock digest now blk).2] ∧
    ((st._addBlock digest now blk).1).height = st.height + 1 ∧
    ((st._addBlock digest now blk).2).height = st.height + 1 ∧
    ((st._addBlock digest now blk).2).previousBlockHash
        = (if st.height = -1 then none
           else (st.chain.get? st.height.toNat).bind Block.hash) := by
  by_cases h : st.height = -1 <;> simp [Blockchain._addBlock, h]

/-- The constructor's initial state is well-formed (empty chain, cached
height -1). -/
theorem WF_new : WF Blockchain.new := by
  refine ⟨rfl, ?_, ?_⟩
  · intro b hb; simp [Blockchain.new] at hb
  · intro i bi bp hi hbi hbp; simp [Blockchain.new] at hbi

/-- The append operation preserves well-formedness: the appended block
lands at the next index, linked to the previous last block's hash. -/
theorem WF_addBlock (digest : String → String) (now : Nat)
    (st : Blockchain) (blk : Block) (h : WF st) :
    WF (st._addBlock digest now blk).1 := by
  obtain ⟨hh, hfirst, hlink⟩ := h
  obtain ⟨hc, hht, hbh, hbp⟩ := addBlock_grows digest now st blk
  by_cases hn : st.chain.length = 0
  · have hcn : st.chain = [] := List.length_eq_zero.mp hn
    have hhe : st.height = -1 := by rw [hh]; omega
    refine ⟨?_, ?_, ?_⟩
    · rw [hht, hhe, hc, hcn]; simp
    · intro b0 hb0
      rw [hc, hcn] at hb0
      have hb0' : (st._addBlock digest now blk).2 = b0 := by simpa using hb0
      subst hb0'
      constructor
      · rw [hbp, if_pos hhe]
      · rw [hbh, hhe]; rfl
    · intro i bi bp hi hbi hbp'
      rw [hc, hcn] at hbi
      have hlt : i < 1 := by simpa using (List.get?_eq_some.mp hbi).1
      omega
  · have hpos : 0 < st.chain.length := Nat.pos_of_ne_zero hn
    have hne : st.height ≠ -1 := by rw [hh]; intro hcon; omega
    have htn : st.height.toNat = st.chain.length - 1 := by rw [hh]; omega
    obtain ⟨lb, hlb⟩ : ∃ lb, st.chain.get? (st.chain.length - 1) = some lb := by
      have hlt : st.chain.length - 1 < st.chain.length := by omega
      exact ⟨st.chain.get ⟨_, hlt⟩, List.get?_eq_get hlt⟩
    have hbp2 : (st._addBlock digest now blk).2.previousBlockHash = lb.hash := by
      rw [hbp, if_neg hne, htn, hlb]; rfl
    have hbh2 : (st._addBlock digest now blk).2.height
        = (st.chain.length : Int) := by rw [hbh, hh]; omega
    refine ⟨?_, ?_, ?_⟩
    · rw [hht, hh, hc]; simp [List.length_append]
    · intro b0 hb0
      rw [hc, List.get?_append hpos] at hb0
      exact hfirst b0 hb0
    · intro i bi bp hi hbi hbp'
      rw [hc] at hbi hbp'
      have hilt : i < st.chain.length + 1 := by
        have := (List.get?_eq_some.mp hbi).1
        simpa [List.length_append] using this
      by_cases hin : i < st.chain.length
      · rw [List.get?_append hin] at hbi
        rw [List.get?_append (by omega : i - 1 < st.chain.length)] at hbp'
        exact hlink i bi bp hi hbi hbp'
      · have hieq : i = st.chain.length := by omega
        subst hieq
        rw [List.get?_concat_length] at hbi
        have hbi' : (st._addBlock digest now blk).2 = bi := Option.some.inj hbi
        rw [List.get?_append
          (by omega : st.chain.length - 1 < st.chain.length), hlb] at hbp'
        have hbp'' : lb = bp := Option.some.inj hbp'
        subst hbi'
        subst hbp''
        exact ⟨hbp2, hbh2⟩

/-- Every state reachable through the public interface is well-formed. -/
theorem WF_reachable (digest : String → String)
    (verify : String → String → String → Bool) (st : Blockchain)
    (h : Reachable digest verify st) : WF st := by
  induction h with
  | genesis now =>
    exact WF_addBlock digest now Blockchain.new
      (mkBlock (Body.genesis "Genesis Block")) WF_new
  | submit st now a m s star hr ih =>
    rcases submitStar_shape digest verify now st a m s star with hs | hs | hs <;>
      rw [hs]
    · exact ih
    · exact ih
    · exact WF_addBlock digest now st (mkBlock (Body.star a m star)) ih

/-- C1: after genesis creation and any sequence of `submitStar` calls —
hence after every successful append — the chain satisfies the linkage
invariant: the first block has a null previous-hash and height 0, and
every block at index i > 0 links to block i-1's hash and carries i as
its height. -/
theorem reachable_chain_linked (digest : String → String)
    (verify : String → String → String → Bool) (st : Blockchain)
    (h : Reachable digest verify st) : chainLinked st.chain :=
  (WF_reachable digest verify st h).2

/-- Witness for C1: the linkage invariant on the concrete chain obtained
by genesis creation followed by one accepted star submission. -/
theorem reachable_chain_linked_witness :
    chainLinked (((Blockchain.new.initChain digestD 5).submitStar digestD
      (fun _ _ _ => true) 10 "a" "a:9:starRegistry" "s" "p").1).chain :=
  reachable_chain_linked digestD (fun _ _ _ => true) _
    (Reachable.submit _ 10 "a" "a:9:starRegistry" "s" "p" (Reachable.genesis 5))

/-- Folding `_addBlock` over a list of steps grows the chain by one
block per step and the cached height by one per step. -/
theorem appendMany_counts (digest : String → String)
    (steps : List (Nat × Body)) :
    ∀ st : Blockchain,
      (appendMany digest steps st).chain.length
          = st.chain.length + steps.length ∧
      (appendMany digest steps st).height = st.height + steps.length := by
  induction steps with
  | nil => intro st; simp [appendMany]
  | cons p rest ih =>
    intro st
    obtain ⟨hc, hht, _, _⟩ := addBlock_grows digest p.1 st (mkBlock p.2)
    have h1 : appendMany digest (p :: rest) st
        = appendMany digest rest (st._addBlock digest p.1 (mkBlock p.2)).1 := rfl
    obtain ⟨ha, hb⟩ := ih (st._addBlock digest p.1 (mkBlock p.2)).1
    rw [h1]
    constructor
    · rw [ha, hc]; simp [List.length_append]; omega
    · rw [hb, hht]; simp only [List.length_cons]; push_cast; ring

/-- C9: height bookkeeping is exact — after genesis and any N further
successful appends, `getChainHeight` reads N and the chain holds N+1
blocks; equivalently the cached height equals the chain length minus
one. -/
theorem chainHeight_exact (digest : String → String)
    (steps : List (Nat × Body)) (now0 : Nat) :
    (appendMany digest steps (Blockchain.new.initChain digest now0)).getChainHeight
        = (steps.length : Int) ∧
    (appendMany digest steps (Blockchain.new.initChain digest now0)).chain.length
        = steps.length + 1 ∧
    (appendMany digest steps (Blockchain.new.initChain digest now0)).getChainHeight
        = ((appendMany digest steps
            (Blockchain.new.initChain digest now0)).chain.length : Int) - 1 := by
  obtain ⟨ha, hb⟩ :=
    appendMany_counts digest steps (Blockchain.new.initChain digest now0)
  have h1 : (Blockchain.new.initChain digest now0).chain.length = 1 := rfl
  have h2 : (Blockchain.new.initChain digest now0).height = 0 := rfl
  rw [h1] at ha
  rw [h2] at hb
  refine ⟨?_, ?_, ?_⟩
  · simp [Blockchain.getChainHeight, hb]
  · rw [ha]; omega
  · simp [Blockchain.getChainHeight, ha, hb]

/-- C6: `validateChain` aggregates over every index without
short-circuiting (and, being a pure function of the state, without
mutating the chain): an intact chain yields the empty report, every
block failing its own hash recomputation contributes its invalid-block
entry, and every block whose link disagrees with its predecessor's hash
contributes its distinct invalid-link entry — independently of the
block's own check, so both entries can be reported for one index. -/
theorem validateChain_full_report (digest : String → String) (st : Blockchain) :
    (((∀ i b, st.chain.get? i = some b → b.validate digest = true) ∧
      (∀ i b p, 0 < i → st.chain.get? i = some b →
        st.chain.get? (i - 1) = some p → b.previousBlockHash = p.hash)) →
      st.validateChain digest = []) ∧
    (∀ i b, st.chain.get? i = some b → b.validate digest = false →
      invalidBlockMsg i ∈ st.validateChain digest) ∧
    (∀ i b p, 0 < i → st.chain.get? i = some b →
      st.chain.get? (i - 1) = some p → b.previousBlockHash ≠ p.hash →
      invalidLinkMsg i ∈ st.validateChain digest) := by
  refine ⟨?_, ?_, ?_⟩
  · rintro ⟨hv, hl⟩
    unfold Blockchain.validateChain
    apply List.flatMap_eq_nil_iff.mpr
    intro i hi
    have hi' : i < st.chain.length := List.mem_range.mp hi
    obtain ⟨b, hb⟩ : ∃ b, st.chain.get? i = some b :=
      ⟨st.chain.get ⟨i, hi'⟩, List.get?_eq_get hi'⟩
    rw [hb]
    by_cases hzi : 0 < i
    · obtain ⟨p, hp⟩ : ∃ p, st.chain.get? (i - 1) = some p :=
        ⟨st.chain.get ⟨i - 1, by omega⟩, List.get?_eq_get (by omega)⟩
      rw [hp]
      simp [hv i b hb, hzi, hl i b p hzi hb hp]
    · simp [hv i b hb, hzi]
  · intro i b hb hval
    unfold Blockchain.validateChain
    have hi : i < st.chain.length := (List.get?_eq_some.mp hb).1
    apply List.mem_flatMap.mpr
    refine ⟨i, List.mem_range.mpr hi, ?_⟩
    rw [hb]
    apply List.mem_append_left
    simp [hval]
  · intro i b p hzi hb hp hne
    unfold Blockchain.validateChain
    have hi : i < st.chain.length := (List.get?_eq_some.mp hb).1
    apply List.mem_flatMap.mpr
    refine ⟨i, List.mem_range.mpr hi, ?_⟩
    rw [hb]
    apply List.mem_append_right
    rw [hp]
    simp [hzi, hne]

/-- Witness for C6: on the concrete two-block chain whose second block
both fails its own hash check and mislinks, both entries for index 1
are reported; on the intact one-block chain the report is empty. -/
theorem validateChain_full_report_witness :
    invalidBlockMsg 1 ∈ (Blockchain.mk [wb0, wb1] 1).validateChain digestD ∧
    invalidLinkMsg 1 ∈ (Blockchain.mk [wb0, wb1] 1).validateChain digestD ∧
    (Blockchain.mk [wb0] 0).validateChain digestD = [] := by
  refine ⟨?_, ?_, ?_⟩
  · exact (validateChain_full_report digestD (Blockchain.mk [wb0, wb1] 1)).2.1
      1 wb1 rfl (by decide)
  · exact (validateChain_full_report digestD (Blockchain.mk [wb0, wb1] 1)).2.2
      1 wb1 wb0 (by decide) rfl rfl (by decide)
  · apply (validateChain_full_report digestD (Blockchain.mk [wb0] 0)).1
    constructor
    · intro i b hb
      cases i with
      | zero =>
        have hb' : wb0 = b := Option.some.inj hb
        rw [← hb']
        decide
      | succ j => simp [List.get?_cons_succ, List.get?_nil] at hb
    · intro i b p hzi hb hp
      cases i with
      | zero => omega
      | succ j => simp [List.get?_cons_succ, List.get?_nil] at hb

/-- `List.find?` returns the first satisfying element: it sits at an
index before which no element satisfies the predicate. -/
theorem find?_first_index {α : Type} (p : α → Bool) :
    ∀ (l : List α) (b : α), l.find? p = some b →
      ∃ i, l.get? i = some b ∧ p b = true ∧
        ∀ j c, j < i → l.get? j = some c → p c = false := by
  intro l
  induction l with
  | nil => intro b h; simp at h
  | cons x t ih =>
    intro b h
    by_cases hx : p x
    · rw [List.find?_cons_of_pos t hx] at h
      have hxb : x = b := Option.some.inj h
      subst hxb
      exact ⟨0, rfl, hx, by intro j c hj hc; omega⟩
    · rw [List.find?_cons_of_neg t hx] at h
      obtain ⟨i, h1, h2, h3⟩ := ih b h
      refine ⟨i + 1, by simpa using h1, h2, ?_⟩
      intro j c hj hc
      cases j with
      | zero =>
        have hxc : x = c := Option.some.inj hc
        rw [← hxc]
        simpa using hx
      | succ k => exact h3 k c (by omega) (by simpa using hc)

/-- Under index-equal heights, filtering the chain on a height value
and taking the first match retrieves exactly the positional lookup
(both sides are `none` when the position is out of range). -/
theorem filter_height_head (l : List Block) :
    ∀ (base : Nat),
      (∀ i b, l.get? i = some b → b.height = ((base + i : Nat) : Int)) →
      ∀ k : Nat,
        (l.filter (fun p => p.height = ((base + k : Nat) : Int))).head?
          = l.get? k := by
  induction l with
  | nil => intro base h k; simp
  | cons x t ih =>
    intro base h k
    have hx : x.height = (base : Int) := by simpa using h 0 x rfl
    cases k with
    | zero =>
      have hpx : x.height = ((base + 0 : Nat) : Int) := by simpa using hx
      simp [List.filter_cons, hpx]
    | succ j =>
      have hne : ¬ x.height = ((base + (j + 1) : Nat) : Int) := by
        rw [hx]; intro hcon
        have : (base : Int) = ((base + (j + 1) : Nat) : Int) := hcon
        push_cast at this
        omega
      have ht : ∀ i b, t.get? i = some b →
          b.height = (((base + 1) + i : Nat) : Int) := by
        intro i b hb
        have harg : (base + 1) + i = base + (i + 1) := by omega
        rw [harg]
        exact h (i + 1) b (by simpa using hb)
      have hrec := ih (base + 1) ht j
      have harg : (base + 1) + j = base + (j + 1) := by omega
      rw [harg] at hrec
      rw [List.filter_cons, if_neg (by simpa using hne), List.get?_cons_succ]
      exact hrec

/-- C7: the deliberate asymmetry of the two lookups — `getBlockByHash`
resolves with the first block whose hash equals the argument and
rejects with `NotFound` exactly when no block matches, while
`getBlockByHeight` resolves with the positional lookup, yielding the
explicit absent value (`none`, never a rejection) out of range. -/
theorem blockLookups (st : Blockchain) (hs : String)
    (hidx : ∀ i b, st.chain.get? i = some b → b.height = (i : Int)) :
    (st.getBlockByHash hs = .error .notFound ↔
      ∀ b ∈ st.chain, b.hash ≠ some hs) ∧
    (∀ b, st.getBlockByHash hs = .ok b → b.hash = some hs ∧
      ∃ i, st.chain.get? i = some b ∧
        ∀ j c, j < i → st.chain.get? j = some c → c.hash ≠ some hs) ∧
    (∀ k : Nat, st.getBlockByHeight (k : Int) = st.chain.get? k) := by
  refine ⟨?_, ?_, ?_⟩
  · constructor
    · intro h
      cases hf : st.chain.find? (fun b => b.hash = some hs) with
      | none =>
        intro b hb hcon
        have := List.find?_eq_none.mp hf b hb
        simp [hcon] at this
      | some b =>
        unfold Blockchain.getBlockByHash at h
        rw [hf] at h
        simp at h
    · intro h
      unfold Blockchain.getBlockByHash
      cases hf : st.chain.find? (fun b => b.hash = some hs) with
      | none => rfl
      | some b =>
        have hmem := List.mem_of_find?_eq_some hf
        have hpb := List.find?_some hf
        exact absurd (of_decide_eq_true hpb) (h b hmem)
  · intro b hb
    unfold Blockchain.getBlockByHash at hb
    cases hf : st.chain.find? (fun x => x.hash = some hs) with
    | none => rw [hf] at hb; simp at hb
    | some c =>
      rw [hf] at hb
      have hcb : c = b := by simpa using hb
      subst hcb
      obtain ⟨i, h1, h2, h3⟩ := find?_first_index _ st.chain c hf
      refine ⟨of_decide_eq_true h2, i, h1, ?_⟩
      intro j d hj hd
      have := h3 j d hj hd
      simpa using this
  · intro k
    unfold Blockchain.getBlockByHeight
    have h0 : ∀ i b, st.chain.get? i = some b →
        b.height = ((0 + i : Nat) : Int) := by
      intro i b hbb; simpa using hidx i b hbb
    have := filter_height_head st.chain 0 h0 k
    simpa using this

/-- Witness for C7 on a concrete two-block chain: an unknown hash
rejects with NotFound, an out-of-range height resolves with the absent
value, and a known hash resolves with its block. -/
theorem blockLookups_witness :
    (Blockchain.mk [wb0, wb1] 1).getBlockByHash "Q" = .error .notFound ∧
    (Blockchain.mk [wb0, wb1] 1).getBlockByHeight ((5 : Nat) : Int) = none ∧
    (Blockchain.mk [wb0, wb1] 1).getBlockByHash "X" = .ok wb1 := by
  have hidx : ∀ i b, (Blockchain.mk [wb0, wb1] 1).chain.get? i = some b →
      b.height = (i : Int) := by
    intro i b hb
    match i with
    | 0 =>
      have hb' : wb0 = b := Option.some.inj hb
      rw [← hb']; decide
    | 1 =>
      have hb' : wb1 = b := Option.some.inj hb
      rw [← hb']; decide
    | j + 2 => simp [List.get?_cons_succ, List.get?_nil] at hb
  refine ⟨(blockLookups (Blockchain.mk [wb0, wb1] 1) "Q" hidx).1.mpr (by decide),
    ?_, rfl⟩
  exact ((blockLookups (Blockchain.mk [wb0, wb1] 1) "Q" hidx).2.2 5).trans rfl

/-- The accumulator form of the star-collection loop: it extends the
accumulator with the declarative filter-map of the scanned blocks. -/
theorem getStarsLoop_eq (decode : String → String) (address : String) :
    ∀ (l : List Block) (acc : List String),
      getStarsLoop decode address l acc = acc ++ starsSpec decode address l := by
  intro l
  induction l with
  | nil => intro acc; simp [getStarsLoop, starsSpec]
  | cons b t ih =>
    intro acc
    cases hb : b.body with
    | genesis d => simp [getStarsLoop, starsSpec, hb, ih]
    | star a m s =>
      by_cases ha : a = address <;>
        simp [getStarsLoop, starsSpec, hb, ha, ih]

/-- C8: `getStarsByWalletAddress` returns the decoded star payloads of
exactly the blocks whose body's address field equals the argument, in
chain order (oldest first), skipping blocks without an address field
such as genesis; being a total function into a plain list it never
fails, and an address matching no block yields the empty list. -/
theorem getStars_matches_spec (decode : String → String) (st : Blockchain)
    (address : String) :
    st.getStarsByWalletAddress decode address
        = starsSpec decode address st.chain ∧
    ((∀ b ∈ st.chain, bodyMatches address b.body = false) →
      st.getStarsByWalletAddress decode address = []) := by
  have h1 : st.getStarsByWalletAddress decode address
      = starsSpec decode address st.chain := by
    simpa [Blockchain.getStarsByWalletAddress] using
      getStarsLoop_eq decode address st.chain []
  refine ⟨h1, ?_⟩
  intro h
  rw [h1]
  unfold starsSpec
  apply List.filterMap_eq_nil.mpr
  intro b hb
  have hm := h b hb
  cases hbody : b.body with
  | genesis d => simp [hbody]
  | star a m s =>
    rw [hbody] at hm
    simp [bodyMatches] at hm
    simp [hbody, hm]

/-- Witness for C8: on the genesis-only chain, an address with no
claims yields the empty list. -/
theorem getStars_matches_spec_witness :
    (Blockchain.new.initChain digestD 0).getStarsByWalletAddress digestD "addr"
      = [] :=
  (getStars_matches_spec digestD (Blockchain.new.initChain digestD 0) "addr").2
    (by decide)

end StarChain
